import Mathlib

/-!
# Verification of the day-19 virtual machine (`src/19/src/main.rs`)

A shallow embedding of the register-based VM: six `i32` registers
(`Registers`), one bound to the instruction pointer, sixteen opcodes
dispatched by number (`run_command`), and the fetch–execute–increment loop
(`run_program`).  Rust `i32` arithmetic is modelled on `Int` with an explicit
reduction into the two's-complement range `[-2^31, 2^31)` (`wrap32`), the
release-profile wrapping semantics of `+` and `*` on `i32`.  Fallible
operations — register access with an out-of-range index, an unknown opcode,
an out-of-bounds instruction fetch (a Rust index panic) — return `Option`.
-/

/-- Reduce an integer into the two's-complement `i32` range
`[-2^31, 2^31)`: the value a Rust `i32` holds for this mathematical
result (release-profile wrapping semantics). -/
def wrap32 (x : Int) : Int := (x + 2 ^ 31) % 2 ^ 32 - 2 ^ 31

/-- `i32` addition (the Rust `+` on `i32`). -/
def i32add (x y : Int) : Int := wrap32 (x + y)

/-- `i32` multiplication (the Rust `*` on `i32`). -/
def i32mul (x y : Int) : Int := wrap32 (x * y)

/-- The unsigned 32-bit pattern of an integer. -/
def toU32 (x : Int) : Nat := (x % 2 ^ 32).toNat

/-- `i32` bitwise AND (the Rust `&` on `i32`): bitwise on the
two's-complement patterns. -/
def i32band (x y : Int) : Int := wrap32 (Int.ofNat (toU32 x &&& toU32 y))

/-- `i32` bitwise OR (the Rust `|` on `i32`). -/
def i32bor (x y : Int) : Int := wrap32 (Int.ofNat (toU32 x ||| toU32 y))

theorem wrap32_lb (x : Int) : -2 ^ 31 ≤ wrap32 x := by
  unfold wrap32; omega

theorem wrap32_ub (x : Int) : wrap32 x < 2 ^ 31 := by
  unfold wrap32; omega

theorem wrap32_eq_self {x : Int} (h1 : -2 ^ 31 ≤ x) (h2 : x < 2 ^ 31) :
    wrap32 x = x := by
  unfold wrap32; omega

theorem wrap32_le_self {x : Int} (h : 0 ≤ x) : wrap32 x ≤ x := by
  unfold wrap32; omega

/-- The six-slot register file `Registers(i32, i32, i32, i32, i32, i32)`. -/
structure Registers where
  r0 : Int
  r1 : Int
  r2 : Int
  r3 : Int
  r4 : Int
  r5 : Int
deriving DecidableEq

/-- `Processor::read`: positional match on the register index; any index
outside `0..=5` is `unreachable!()`, modelled as `none`. -/
def Registers.read (r : Registers) (register : Int) : Option Int :=
  if register = 0 then some r.r0
  else if register = 1 then some r.r1
  else if register = 2 then some r.r2
  else if register = 3 then some r.r3
  else if register = 4 then some r.r4
  else if register = 5 then some r.r5
  else none

/-- `Processor::write`: positional match on the register index; any index
outside `0..=5` is `unreachable!()`, modelled as `none`. -/
def Registers.write (r : Registers) (register : Int) (value : Int) : Option Registers :=
  if register = 0 then some { r with r0 := value }
  else if register = 1 then some { r with r1 := value }
  else if register = 2 then some { r with r2 := value }
  else if register = 3 then some { r with r3 := value }
  else if register = 4 then some { r with r4 := value }
  else if register = 5 then some { r with r5 := value }
  else none

/-- A register index the positional matches accept. -/
def inReg (i : Int) : Prop := 0 ≤ i ∧ i ≤ 5

instance (i : Int) : Decidable (inReg i) := by
  unfold inReg; infer_instance

theorem read_isSome {i : Int} (r : Registers) (h : inReg i) :
    ∃ v, r.read i = some v := by
  unfold Registers.read
  unfold inReg at h
  split_ifs <;> first | exact ⟨_, rfl⟩ | omega

theorem write_isSome {i : Int} (r : Registers) (v : Int) (h : inReg i) :
    ∃ r2, r.write i v = some r2 := by
  unfold Registers.write
  unfold inReg at h
  split_ifs <;> first | exact ⟨_, rfl⟩ | omega

theorem read_write_self {r r2 : Registers} {i v : Int}
    (h : r.write i v = some r2) : r2.read i = some v := by
  unfold Registers.write at h
  split_ifs at h with h0 h1 h2 h3 h4 h5 <;>
    · injection h with h'
      subst h'
      simp only [Registers.read]
      split_ifs <;> first | rfl | omega

theorem read_write_other {r r2 : Registers} {i v j : Int}
    (h : r.write i v = some r2) (hj : j ≠ i) : r2.read j = r.read j := by
  unfold Registers.write at h
  split_ifs at h with h0 h1 h2 h3 h4 h5 <;>
    · injection h with h'
      subst h'
      simp only [Registers.read]
      split_ifs <;> first | rfl | omega

theorem write_inReg {r r2 : Registers} {i v : Int}
    (h : r.write i v = some r2) : inReg i := by
  unfold Registers.write at h
  unfold inReg
  split_ifs at h <;> omega

/-- A decoded instruction: `Command { opcode, a, b, c }`. -/
structure Command where
  opcode : Int
  a : Int
  b : Int
  c : Int
deriving DecidableEq

/-- The `binaryr!` macro: `reg[c] := reg[a] op reg[b]`. -/
def binaryr (f : Int → Int → Int) (r : Registers) (a b c : Int) :
    Option Registers :=
  (r.read a).bind fun va => (r.read b).bind fun vb => r.write c (f va vb)

/-- The `binaryi!` macro: `reg[c] := reg[a] op b`. -/
def binaryi (f : Int → Int → Int) (r : Registers) (a b c : Int) :
    Option Registers :=
  (r.read a).bind fun va => r.write c (f va b)

/-- The `testingir!` macro: `reg[c] := if a op reg[b] then 1 else 0`. -/
def testingir (p : Int → Int → Bool) (r : Registers) (a b c : Int) :
    Option Registers :=
  (r.read b).bind fun vb => r.write c (if p a vb then 1 else 0)

/-- The `testingri!` macro: `reg[c] := if reg[a] op b then 1 else 0`. -/
def testingri (p : Int → Int → Bool) (r : Registers) (a b c : Int) :
    Option Registers :=
  (r.read a).bind fun va => r.write c (if p va b then 1 else 0)

/-- The `testingrr!` macro: `reg[c] := if reg[a] op reg[b] then 1 else 0`. -/
def testingrr (p : Int → Int → Bool) (r : Registers) (a b c : Int) :
    Option Registers :=
  (r.read a).bind fun va => (r.read b).bind fun vb =>
    r.write c (if p va vb then 1 else 0)

def addr : Registers → Int → Int → Int → Option Registers := binaryr i32add
def addi : Registers → Int → Int → Int → Option Registers := binaryi i32add
def mulr : Registers → Int → Int → Int → Option Registers := binaryr i32mul
def muli : Registers → Int → Int → Int → Option Registers := binaryi i32mul
def banr : Registers → Int → Int → Int → Option Registers := binaryr i32band
def bani : Registers → Int → Int → Int → Option Registers := binaryi i32band
def borr : Registers → Int → Int → Int → Option Registers := binaryr i32bor
def bori : Registers → Int → Int → Int → Option Registers := binaryi i32bor

/-- `setr`: `reg[c] := reg[a]` (operand `b` unused). -/
def setr (r : Registers) (a _b c : Int) : Option Registers :=
  (r.read a).bind fun va => r.write c va

/-- `seti`: `reg[c] := a` (operand `b` unused). -/
def seti (r : Registers) (a _b c : Int) : Option Registers :=
  r.write c a

def gtir : Registers → Int → Int → Int → Option Registers :=
  testingir fun x y => decide (x > y)
def gtri : Registers → Int → Int → Int → Option Registers :=
  testingri fun x y => decide (x > y)
def gtrr : Registers → Int → Int → Int → Option Registers :=
  testingrr fun x y => decide (x > y)

def eqir : Registers → Int → Int → Int → Option Registers :=
  testingir fun x y => decide (x = y)
def eqri : Registers → Int → Int → Int → Option Registers :=
  testingri fun x y => decide (x = y)
def eqrr : Registers → Int → Int → Int → Option Registers :=
  testingrr fun x y => decide (x = y)

/-- `Processor::run_command` composed with the `get_instructions` dispatch
table (opcode number → operation, numbering as inserted there); an opcode
outside the table is `expect("Unknown opcode")`, modelled as `none`. -/
def run_command (cmd : Command) (r : Registers) : Option Registers :=
  if cmd.opcode = 0 then addr r cmd.a cmd.b cmd.c
  else if cmd.opcode = 1 then addi r cmd.a cmd.b cmd.c
  else if cmd.opcode = 2 then mulr r cmd.a cmd.b cmd.c
  else if cmd.opcode = 3 then muli r cmd.a cmd.b cmd.c
  else if cmd.opcode = 4 then banr r cmd.a cmd.b cmd.c
  else if cmd.opcode = 5 then bani r cmd.a cmd.b cmd.c
  else if cmd.opcode = 6 then borr r cmd.a cmd.b cmd.c
  else if cmd.opcode = 7 then bori r cmd.a cmd.b cmd.c
  else if cmd.opcode = 8 then setr r cmd.a cmd.b cmd.c
  else if cmd.opcode = 9 then seti r cmd.a cmd.b cmd.c
  else if cmd.opcode = 10 then gtir r cmd.a cmd.b cmd.c
  else if cmd.opcode = 11 then gtri r cmd.a cmd.b cmd.c
  else if cmd.opcode = 12 then gtrr r cmd.a cmd.b cmd.c
  else if cmd.opcode = 13 then eqir r cmd.a cmd.b cmd.c
  else if cmd.opcode = 14 then eqri r cmd.a cmd.b cmd.c
  else if cmd.opcode = 15 then eqrr r cmd.a cmd.b cmd.c
  else none

/-- Well-formed instruction, per the loader's guarantee (§4.2 of the spec):
a known opcode, destination register in `[0,5]`, and every operand the
opcode reads as a register index in `[0,5]`. -/
def ValidCommand (cmd : Command) : Prop :=
  inReg cmd.c ∧
  ((cmd.opcode = 0 ∨ cmd.opcode = 2 ∨ cmd.opcode = 4 ∨ cmd.opcode = 6 ∨
      cmd.opcode = 12 ∨ cmd.opcode = 15) ∧ inReg cmd.a ∧ inReg cmd.b ∨
   (cmd.opcode = 1 ∨ cmd.opcode = 3 ∨ cmd.opcode = 5 ∨ cmd.opcode = 7 ∨
      cmd.opcode = 8 ∨ cmd.opcode = 11 ∨ cmd.opcode = 14) ∧ inReg cmd.a ∨
   (cmd.opcode = 10 ∨ cmd.opcode = 13) ∧ inReg cmd.b ∨
   cmd.opcode = 9)

instance (cmd : Command) : Decidable (ValidCommand cmd) := by
  unfold ValidCommand; infer_instance

theorem binaryr_spec {r : Registers} {a b c va vb : Int}
    (f : Int → Int → Int)
    (ha : r.read a = some va) (hb : r.read b = some vb) (hc : inReg c) :
    ∃ r2, binaryr f r a b c = some r2 ∧ r2.read c = some (f va vb) ∧
      ∀ j, j ≠ c → r2.read j = r.read j := by
  obtain ⟨r2, hw⟩ := write_isSome r (f va vb) hc
  exact ⟨r2, by simp [binaryr, ha, hb, hw], read_write_self hw,
    fun j hj => read_write_other hw hj⟩

theorem binaryi_spec {r : Registers} {a b c va : Int}
    (f : Int → Int → Int)
    (ha : r.read a = some va) (hc : inReg c) :
    ∃ r2, binaryi f r a b c = some r2 ∧ r2.read c = some (f va b) ∧
      ∀ j, j ≠ c → r2.read j = r.read j := by
  obtain ⟨r2, hw⟩ := write_isSome r (f va b) hc
  exact ⟨r2, by simp [binaryi, ha, hw], read_write_self hw,
    fun j hj => read_write_other hw hj⟩

theorem testingir_spec {r : Registers} {a b c vb : Int}
    (p : Int → Int → Bool)
    (hb : r.read b = some vb) (hc : inReg c) :
    ∃ r2, testingir p r a b c = some r2 ∧
      r2.read c = some (if p a vb then 1 else 0) ∧
      ∀ j, j ≠ c → r2.read j = r.read j := by
  obtain ⟨r2, hw⟩ := write_isSome r (if p a vb then 1 else 0) hc
  exact ⟨r2, by simp [testingir, hb, hw],
    read_write_self hw, fun j hj => read_write_other hw hj⟩

theorem testingri_spec {r : Registers} {a b c va : Int}
    (p : Int → Int → Bool)
    (ha : r.read a = some va) (hc : inReg c) :
    ∃ r2, testingri p r a b c = some r2 ∧
      r2.read c = some (if p va b then 1 else 0) ∧
      ∀ j, j ≠ c → r2.read j = r.read j := by
  obtain ⟨r2, hw⟩ := write_isSome r (if p va b then 1 else 0) hc
  exact ⟨r2, by simp [testingri, ha, hw],
    read_write_self hw, fun j hj => read_write_other hw hj⟩

theorem testingrr_spec {r : Registers} {a b c va vb : Int}
    (p : Int → Int → Bool)
    (ha : r.read a = some va) (hb : r.read b = some vb) (hc : inReg c) :
    ∃ r2, testingrr p r a b c = some r2 ∧
      r2.read c = some (if p va vb then 1 else 0) ∧
      ∀ j, j ≠ c → r2.read j = r.read j := by
  obtain ⟨r2, hw⟩ := write_isSome r (if p va vb then 1 else 0) hc
  exact ⟨r2, by simp [testingrr, ha, hb, hw],
    read_write_self hw, fun j hj => read_write_other hw hj⟩

theorem setr_spec {r : Registers} {a b c va : Int}
    (ha : r.read a = some va) (hc : inReg c) :
    ∃ r2, setr r a b c = some r2 ∧ r2.read c = some va ∧
      ∀ j, j ≠ c → r2.read j = r.read j := by
  obtain ⟨r2, hw⟩ := write_isSome r va hc
  exact ⟨r2, by simp [setr, ha, hw], read_write_self hw,
    fun j hj => read_write_other hw hj⟩

theorem seti_spec {r : Registers} (a b c : Int) (hc : inReg c) :
    ∃ r2, seti r a b c = some r2 ∧ r2.read c = some a ∧
      ∀ j, j ≠ c → r2.read j = r.read j := by
  obtain ⟨r2, hw⟩ := write_isSome r a hc
  exact ⟨r2, hw, read_write_self hw, fun j hj => read_write_other hw hj⟩

theorem binaryr_frame {f : Int → Int → Int} {r r2 : Registers} {a b c : Int}
    (h : binaryr f r a b c = some r2) :
    ∀ j, j ≠ c → r2.read j = r.read j := by
  unfold binaryr at h
  cases hva : r.read a <;> rw [hva] at h <;> simp only [Option.bind] at h
  · exact absurd h (by simp)
  cases hvb : r.read b <;> rw [hvb] at h <;> simp only [Option.bind] at h
  · exact absurd h (by simp)
  exact fun j hj => read_write_other h hj

theorem binaryi_frame {f : Int → Int → Int} {r r2 : Registers} {a b c : Int}
    (h : binaryi f r a b c = some r2) :
    ∀ j, j ≠ c → r2.read j = r.read j := by
  unfold binaryi at h
  cases hva : r.read a <;> rw [hva] at h <;> simp only [Option.bind] at h
  · exact absurd h (by simp)
  exact fun j hj => read_write_other h hj

theorem testingir_frame {p : Int → Int → Bool} {r r2 : Registers}
    {a b c : Int} (h : testingir p r a b c = some r2) :
    ∀ j, j ≠ c → r2.read j = r.read j := by
  unfold testingir at h
  cases hvb : r.read b <;> rw [hvb] at h <;> simp only [Option.bind] at h
  · exact absurd h (by simp)
  exact fun j hj => read_write_other h hj

theorem testingri_frame {p : Int → Int → Bool} {r r2 : Registers}
    {a b c : Int} (h : testingri p r a b c = some r2) :
    ∀ j, j ≠ c → r2.read j = r.read j := by
  unfold testingri at h
  cases hva : r.read a <;> rw [hva] at h <;> simp only [Option.bind] at h
  · exact absurd h (by simp)
  exact fun j hj => read_write_other h hj

theorem testingrr_frame {p : Int → Int → Bool} {r r2 : Registers}
    {a b c : Int} (h : testingrr p r a b c = some r2) :
    ∀ j, j ≠ c → r2.read j = r.read j := by
  unfold testingrr at h
  cases hva : r.read a <;> rw [hva] at h <;> simp only [Option.bind] at h
  · exact absurd h (by simp)
  cases hvb : r.read b <;> rw [hvb] at h <;> simp only [Option.bind] at h
  · exact absurd h (by simp)
  exact fun j hj => read_write_other h hj

theorem setr_frame {r r2 : Registers} {a b c : Int}
    (h : setr r a b c = some r2) :
    ∀ j, j ≠ c → r2.read j = r.read j := by
  unfold setr at h
  cases hva : r.read a <;> rw [hva] at h <;> simp only [Option.bind] at h
  · exact absurd h (by simp)
  exact fun j hj => read_write_other h hj

theorem seti_frame {r r2 : Registers} {a b c : Int}
    (h : seti r a b c = some r2) :
    ∀ j, j ≠ c → r2.read j = r.read j :=
  fun j hj => read_write_other h hj

/-- Dispatch success only changes the destination register: the frame
property of every opcode, through `run_command`. -/
theorem run_command_frame {cmd : Command} {r r2 : Registers}
    (h : run_command cmd r = some r2) :
    ∀ j, j ≠ cmd.c → r2.read j = r.read j := by
  unfold run_command at h
  by_cases h0 : cmd.opcode = 0
  · rw [if_pos h0] at h; exact binaryr_frame h
  rw [if_neg h0] at h
  by_cases h1 : cmd.opcode = 1
  · rw [if_pos h1] at h; exact binaryi_frame h
  rw [if_neg h1] at h
  by_cases h2 : cmd.opcode = 2
  · rw [if_pos h2] at h; exact binaryr_frame h
  rw [if_neg h2] at h
  by_cases h3 : cmd.opcode = 3
  · rw [if_pos h3] at h; exact binaryi_frame h
  rw [if_neg h3] at h
  by_cases h4 : cmd.opcode = 4
  · rw [if_pos h4] at h; exact binaryr_frame h
  rw [if_neg h4] at h
  by_cases h5 : cmd.opcode = 5
  · rw [if_pos h5] at h; exact binaryi_frame h
  rw [if_neg h5] at h
  by_cases h6 : cmd.opcode = 6
  · rw [if_pos h6] at h; exact binaryr_frame h
  rw [if_neg h6] at h
  by_cases h7 : cmd.opcode = 7
  · rw [if_pos h7] at h; exact binaryi_frame h
  rw [if_neg h7] at h
  by_cases h8 : cmd.opcode = 8
  · rw [if_pos h8] at h; exact setr_frame h
  rw [if_neg h8] at h
  by_cases h9 : cmd.opcode = 9
  · rw [if_pos h9] at h; exact seti_frame h
  rw [if_neg h9] at h
  by_cases h10 : cmd.opcode = 10
  · rw [if_pos h10] at h; exact testingir_frame h
  rw [if_neg h10] at h
  by_cases h11 : cmd.opcode = 11
  · rw [if_pos h11] at h; exact testingri_frame h
  rw [if_neg h11] at h
  by_cases h12 : cmd.opcode = 12
  · rw [if_pos h12] at h; exact testingrr_frame h
  rw [if_neg h12] at h
  by_cases h13 : cmd.opcode = 13
  · rw [if_pos h13] at h; exact testingir_frame h
  rw [if_neg h13] at h
  by_cases h14 : cmd.opcode = 14
  · rw [if_pos h14] at h; exact testingri_frame h
  rw [if_neg h14] at h
  by_cases h15 : cmd.opcode = 15
  · rw [if_pos h15] at h; exact testingrr_frame h
  rw [if_neg h15] at h
  exact Option.noConfusion h

/-- A well-formed instruction always dispatches successfully. -/
theorem run_command_total {cmd : Command} (r : Registers)
    (h : ValidCommand cmd) : ∃ r2, run_command cmd r = some r2 := by
  obtain ⟨hc, hops⟩ := h
  rcases hops with ⟨hop, hra, hrb⟩ | ⟨hop, hra⟩ | ⟨hop, hrb⟩ | hop
  · obtain ⟨va, hva⟩ := read_isSome r hra
    obtain ⟨vb, hvb⟩ := read_isSome r hrb
    rcases hop with hop | hop | hop | hop | hop | hop <;>
      simp [run_command, hop] <;>
      first
        | exact (binaryr_spec _ hva hvb hc).imp fun r2 h2 => h2.1
        | exact (testingrr_spec _ hva hvb hc).imp fun r2 h2 => h2.1
  · obtain ⟨va, hva⟩ := read_isSome r hra
    rcases hop with hop | hop | hop | hop | hop | hop | hop <;>
      simp [run_command, hop] <;>
      first
        | exact (binaryi_spec _ hva hc).imp fun r2 h2 => h2.1
        | exact (setr_spec hva hc).imp fun r2 h2 => h2.1
        | exact (testingri_spec _ hva hc).imp fun r2 h2 => h2.1
  · obtain ⟨vb, hvb⟩ := read_isSome r hrb
    rcases hop with hop | hop <;>
      simp [run_command, hop] <;>
      exact (testingir_spec _ hvb hc).imp fun r2 h2 => h2.1
  · simp [run_command, hop]
    exact (seti_spec cmd.a cmd.b cmd.c hc).imp fun r2 h2 => h2.1

/-- The processor: register file plus the designated instruction-pointer
register index (`Processor { registers, ip_register }`). -/
structure Processor where
  registers : Registers
  ip_register : Int
deriving DecidableEq

/-- `Processor::ip`: read the instruction-pointer register. -/
def Processor.ip (p : Processor) : Option Int :=
  p.registers.read p.ip_register

/-- The instruction fetch `commands[self.ip() as usize]`: a negative `i32`
cast `as usize` is a huge index, so any address outside `[0, len)` is a
Rust index panic, modelled as `none`. -/
def fetch (commands : List Command) (p : Processor) : Option Command :=
  p.ip.bind fun v => if 0 ≤ v then commands[v.toNat]? else none

/-- One iteration of the `run_program` loop body: fetch and dispatch the
instruction at the current pointer, then write `ip() + 1` (an `i32`
addition) back into the instruction-pointer register. -/
def execStep (commands : List Command) (p : Processor) : Option Processor :=
  (fetch commands p).bind fun cmd =>
  (run_command cmd p.registers).bind fun regs1 =>
  (regs1.read p.ip_register).bind fun v =>
  (regs1.write p.ip_register (i32add v 1)).map fun regs2 =>
  { registers := regs2, ip_register := p.ip_register }

/-- `commands.len() as i32`: the program length truncated to `i32`. -/
def lenI32 (commands : List Command) : Int := wrap32 commands.length

/-- Outcome of running the loop with a step budget: `halt` (the pointer
left the program), `panic` (a Rust panic: bad fetch index, bad register
index or unknown opcode), or `timeout` (budget exhausted, still running). -/
inductive ExecResult where
  | halt (p : Processor)
  | panic
  | timeout
deriving DecidableEq

/-- `Processor::run_program`, fuelled: each unit of fuel is one
fetch–dispatch–increment iteration; the loop breaks when the pointer value
is `≥ commands.len() as i32` after the increment. -/
def run_program : Nat → List Command → Processor → ExecResult
  | 0, _, _ => ExecResult.timeout
  | fuel + 1, commands, p =>
    match execStep commands p with
    | none => ExecResult.panic
    | some p2 =>
      match p2.ip with
      | none => ExecResult.panic
      | some v =>
        if lenI32 commands ≤ v then ExecResult.halt p2
        else run_program fuel commands p2

/-- The processor state at the start of cycle `k` of the loop (cycle `0`
starts at `p`): `none` if the loop panicked or halted before `k` cycles
were begun. -/
def stateAtCycle : Nat → List Command → Processor → Option Processor
  | 0, _, p => some p
  | k + 1, commands, p =>
    match execStep commands p with
    | none => none
    | some p2 =>
      match p2.ip with
      | none => none
      | some v =>
        if lenI32 commands ≤ v then none
        else stateAtCycle k commands p2

/-- The all-zero register file `Registers(0, 0, 0, 0, 0, 0)` that `main`
starts each run from. -/
def initRegisters : Registers := ⟨0, 0, 0, 0, 0, 0⟩

/-- The processor `main` builds for part 1: zero registers and the parsed
instruction-pointer register index. -/
def part1_processor (ip_register : Int) : Processor :=
  { registers := initRegisters, ip_register := ip_register }

theorem initRegisters_read {i : Int} (h : inReg i) :
    initRegisters.read i = some 0 := by
  unfold inReg at h
  unfold initRegisters Registers.read
  split_ifs <;> first | rfl | omega

theorem execStep_ip_register {commands : List Command} {p p2 : Processor}
    (h : execStep commands p = some p2) : p2.ip_register = p.ip_register := by
  unfold execStep at h
  cases hf : fetch commands p <;> rw [hf] at h <;>
    simp only [Option.bind] at h
  · exact Option.noConfusion h
  rename_i cmd
  cases hrc : run_command cmd p.registers <;> rw [hrc] at h <;>
    simp only [Option.bind] at h
  · exact Option.noConfusion h
  rename_i regs1
  cases hv : regs1.read p.ip_register <;> rw [hv] at h <;>
    simp only [Option.bind] at h
  · exact Option.noConfusion h
  rename_i v
  cases hw : regs1.write p.ip_register (i32add v 1) <;> rw [hw] at h <;>
    simp only [Option.map] at h
  · exact Option.noConfusion h
  injection h with h2
  rw [← h2]

/-- Unfolding `execStep` when every stage is known to succeed. -/
theorem execStep_eq {commands : List Command} {p : Processor}
    {cmd : Command} {regs1 regs2 : Registers} {v : Int}
    (hf : fetch commands p = some cmd)
    (hrc : run_command cmd p.registers = some regs1)
    (hv : regs1.read p.ip_register = some v)
    (hw : regs1.write p.ip_register (i32add v 1) = some regs2) :
    execStep commands p =
      some { registers := regs2, ip_register := p.ip_register } := by
  simp [execStep, hf, hrc, hv, hw]

/-- A halt within a given budget persists in any larger budget. -/
theorem run_halt_mono {commands : List Command} {p q : Processor}
    {f g : Nat} (h : run_program f commands p = ExecResult.halt q)
    (hfg : f ≤ g) : run_program g commands p = ExecResult.halt q := by
  induction f generalizing p g with
  | zero => exact absurd h (by simp [run_program])
  | succ f ih =>
    obtain ⟨g2, rfl⟩ : ∃ g2, g = g2 + 1 := ⟨g - 1, by omega⟩
    unfold run_program at h ⊢
    cases hs : execStep commands p <;> simp only [hs] at h ⊢
    · exact ExecResult.noConfusion h
    rename_i p2
    cases hv : p2.ip <;> simp only [hv] at h ⊢
    · exact ExecResult.noConfusion h
    rename_i v
    by_cases hl : lenI32 commands ≤ v
    · rw [if_pos hl] at h ⊢; exact h
    · rw [if_neg hl] at h ⊢; exact ih h (by omega)

theorem fetch_at {commands : List Command} {p : Processor} {k : Nat}
    (hip : p.ip = some (k : Int)) : fetch commands p = commands[k]? := by
  unfold fetch
  rw [hip]
  simp

/-- If no instruction writes to the pointer register, each loop iteration
takes the pointer from `k` to `k + 1`; with at most `2^31 - 1` further
instructions this never wraps, so the loop runs off the end of the
program: with exactly `length - k` units of fuel it halts with the
pointer register holding `length`. -/
theorem loop_halts {commands : List Command} {R : Int}
    (hR : inReg R) (hlen : commands.length ≤ 2 ^ 31 - 1)
    (hval : ∀ cmd ∈ commands, ValidCommand cmd)
    (hnw : ∀ cmd ∈ commands, cmd.c ≠ R) :
    ∀ (f k : Nat) (regs : Registers),
      regs.read R = some (k : Int) → k < commands.length →
      f = commands.length - k →
      ∃ final, run_program f commands ⟨regs, R⟩ = ExecResult.halt final ∧
        final.registers.read R = some (commands.length : Int) ∧
        final.ip_register = R := by
  intro f
  induction f with
  | zero => intro k regs _ hk hf; omega
  | succ f2 ih =>
    intro k regs hread hk hf
    have hcmd : commands[k]? = some (commands.get ⟨k, hk⟩) :=
      List.getElem?_eq_getElem hk
    have hmem : commands.get ⟨k, hk⟩ ∈ commands := List.getElem_mem hk
    have hfetch : fetch commands ⟨regs, R⟩ = some (commands.get ⟨k, hk⟩) := by
      rw [fetch_at (show Processor.ip ⟨regs, R⟩ = some (k : Int) from hread)]
      exact hcmd
    obtain ⟨regs1, hrc⟩ := run_command_total regs (hval _ hmem)
    have hread1 : regs1.read R = some (k : Int) := by
      rw [run_command_frame hrc R fun h => hnw _ hmem h.symm]
      exact hread
    have hadd : i32add (k : Int) 1 = ((k : Int) + 1) := by
      unfold i32add
      exact wrap32_eq_self (by omega) (by omega)
    obtain ⟨regs2, hw⟩ := write_isSome regs1 (i32add (k : Int) 1) hR
    have hstep := execStep_eq hfetch hrc hread1 hw
    have hread2 : regs2.read R = some ((k : Int) + 1) := by
      rw [← hadd]; exact read_write_self hw
    have hlenN : lenI32 commands = (commands.length : Int) :=
      wrap32_eq_self (by omega) (by omega)
    by_cases hend : k + 1 = commands.length
    · refine ⟨⟨regs2, R⟩, ?_, ?_, rfl⟩
      · unfold run_program
        rw [hstep]
        simp only [Processor.ip, hread2, hlenN]
        rw [if_pos (by omega)]
      · show regs2.read R = some (commands.length : Int)
        rw [hread2]
        exact congrArg some (by omega)
    · obtain ⟨final, hrun, hfr, hfi⟩ :=
        ih (k + 1) regs2 (by push_cast; exact hread2) (by omega) (by omega)
      refine ⟨final, ?_, hfr, hfi⟩
      unfold run_program
      rw [hstep]
      simp only [Processor.ip, hread2, hlenN]
      rw [if_neg (by omega)]
      exact hrun

/-- With fuel short of `length - k` the same loop is still running. -/
theorem loop_timeout {commands : List Command} {R : Int}
    (hR : inReg R) (hlen : commands.length ≤ 2 ^ 31 - 1)
    (hval : ∀ cmd ∈ commands, ValidCommand cmd)
    (hnw : ∀ cmd ∈ commands, cmd.c ≠ R) :
    ∀ (f k : Nat) (regs : Registers),
      regs.read R = some (k : Int) → f + k < commands.length →
      run_program f commands ⟨regs, R⟩ = ExecResult.timeout := by
  intro f
  induction f with
  | zero => intro k regs _ _; rfl
  | succ f2 ih =>
    intro k regs hread hf
    have hk : k < commands.length := by omega
    have hcmd : commands[k]? = some (commands.get ⟨k, hk⟩) :=
      List.getElem?_eq_getElem hk
    have hmem : commands.get ⟨k, hk⟩ ∈ commands := List.getElem_mem hk
    have hfetch : fetch commands ⟨regs, R⟩ = some (commands.get ⟨k, hk⟩) := by
      rw [fetch_at (show Processor.ip ⟨regs, R⟩ = some (k : Int) from hread)]
      exact hcmd
    obtain ⟨regs1, hrc⟩ := run_command_total regs (hval _ hmem)
    have hread1 : regs1.read R = some (k : Int) := by
      rw [run_command_frame hrc R fun h => hnw _ hmem h.symm]
      exact hread
    have hadd : i32add (k : Int) 1 = ((k : Int) + 1) := by
      unfold i32add
      exact wrap32_eq_self (by omega) (by omega)
    obtain ⟨regs2, hw⟩ := write_isSome regs1 (i32add (k : Int) 1) hR
    have hstep := execStep_eq hfetch hrc hread1 hw
    have hread2 : regs2.read R = some ((k : Int) + 1) := by
      rw [← hadd]; exact read_write_self hw
    have hlenN : lenI32 commands = (commands.length : Int) :=
      wrap32_eq_self (by omega) (by omega)
    unfold run_program
    rw [hstep]
    simp only [Processor.ip, hread2, hlenN]
    rw [if_neg (by omega)]
    exact ih (k + 1) regs2 (by push_cast; exact hread2) (by omega)

theorem run_program_succ_halt {cs : List Command} {p p2 : Processor}
    {v : Int} {f : Nat} (hs : execStep cs p = some p2)
    (hip : p2.ip = some v) (hl : lenI32 cs ≤ v) :
    run_program (f + 1) cs p = ExecResult.halt p2 := by
  unfold run_program
  simp only [hs, hip]
  rw [if_pos hl]

theorem run_program_succ_cont {cs : List Command} {p p2 : Processor}
    {v : Int} {f : Nat} (hs : execStep cs p = some p2)
    (hip : p2.ip = some v) (hl : ¬lenI32 cs ≤ v) :
    run_program (f + 1) cs p = run_program f cs p2 := by
  conv_lhs => rw [run_program.eq_def]
  simp only [hs, hip]
  rw [if_neg hl]

theorem stateAtCycle_succ_cont {cs : List Command} {p p2 : Processor}
    {v : Int} {k : Nat} (hs : execStep cs p = some p2)
    (hip : p2.ip = some v) (hl : ¬lenI32 cs ≤ v) :
    stateAtCycle (k + 1) cs p = stateAtCycle k cs p2 := by
  conv_lhs => rw [stateAtCycle.eq_def]
  simp only [hs, hip]
  rw [if_neg hl]

/-- Claim C1, amended: after every dispatch the loop unconditionally adds
1 to the instruction-pointer register on top of whatever value the
register then holds — but the addition is the `i32` addition, so if the
dispatched instruction left `t` in the pointer register, the register
holds `wrap32 (t + 1)` before the halting check, which equals `t + 1` for
every `t` below the `i32` maximum `2^31 - 1` (at `t = 2^31 - 1` it wraps
to `-2^31`). -/
theorem c1_ip_increment {cs : List Command} {p : Processor} {cmd : Command}
    {q : Registers} {t : Int}
    (hf : fetch cs p = some cmd)
    (hrc : run_command cmd p.registers = some q)
    (ht : q.read p.ip_register = some t)
    (hR : inReg p.ip_register) :
    ∃ q2, execStep cs p = some ⟨q2, p.ip_register⟩ ∧
      q2.read p.ip_register = some (i32add t 1) ∧
      (-2 ^ 31 ≤ t → t < 2 ^ 31 - 1 → i32add t 1 = t + 1) := by
  obtain ⟨q2, hw⟩ := write_isSome q (i32add t 1) hR
  exact ⟨q2, execStep_eq hf hrc ht hw, read_write_self hw,
    fun h1 h2 => wrap32_eq_self (by omega) (by omega)⟩

/-- Claim C1, witness: a concrete `seti 3 0 0` with pointer register 0
leaves `3 + 1 = 4` in the pointer register before the halting check. -/
theorem c1_witness :
    ∃ q2, execStep [⟨9, 3, 0, 0⟩] (part1_processor 0) = some ⟨q2, 0⟩ ∧
      q2.read 0 = some (i32add 3 1) ∧
      (-2 ^ 31 ≤ (3 : Int) → (3 : Int) < 2 ^ 31 - 1 → i32add 3 1 = 3 + 1) :=
  @c1_ip_increment [⟨9, 3, 0, 0⟩] (part1_processor 0) ⟨9, 3, 0, 0⟩
    ⟨3, 0, 0, 0, 0, 0⟩ 3 (by decide) (by decide) (by decide) (by decide)

/-- Claim C1, counterexample: `seti 2147483647 0 0` with pointer register
0 writes `t = 2147483647` into the pointer register; the claim says the
register then holds `t + 1 = 2147483648` before the halting check, but the
`i32` increment wraps and the register holds `-2147483648` instead. -/
theorem c1_counterexample :
    run_command ⟨9, 2147483647, 0, 0⟩ (part1_processor 0).registers =
      some ⟨2147483647, 0, 0, 0, 0, 0⟩ ∧
    execStep [⟨9, 2147483647, 0, 0⟩] (part1_processor 0) =
      some ⟨⟨-2147483648, 0, 0, 0, 0, 0⟩, 0⟩ ∧
    (-2147483648 : Int) ≠ 2147483647 + 1 :=
  ⟨by decide, by decide, by decide⟩

/-- Claim C2, amended: for a program of length `N` with `1 ≤ N ≤ 2^31 - 1`
whose instruction-pointer register `R` is never the destination of any
instruction (all instructions well formed, per the loader's guarantee),
execution from the initial state halts after exactly `N` steps — fuel `N`
halts, fuel `N - 1` is still running — with register `R` holding `N`.
The bound `N ≤ 2^31 - 1` is forced: at `N = 2^31` the `i32` length cast
is negative and the run halts after one step (see the counterexample). -/
theorem c2_pointer_halting {cs : List Command} {R : Int}
    (hne : 1 ≤ cs.length) (hlen : cs.length ≤ 2 ^ 31 - 1)
    (hR : inReg R)
    (hval : ∀ cmd ∈ cs, ValidCommand cmd)
    (hnw : ∀ cmd ∈ cs, cmd.c ≠ R) :
    (∃ final, run_program cs.length cs (part1_processor R) =
        ExecResult.halt final ∧
      final.registers.read R = some (cs.length : Int)) ∧
    run_program (cs.length - 1) cs (part1_processor R) =
      ExecResult.timeout := by
  constructor
  · obtain ⟨final, h1, h2, _⟩ :=
      loop_halts hR hlen hval hnw cs.length 0 initRegisters
        (by rw [initRegisters_read hR]; norm_num) (by omega) (by omega)
    exact ⟨final, h1, h2⟩
  · exact loop_timeout hR hlen hval hnw (cs.length - 1) 0 initRegisters
      (by rw [initRegisters_read hR]; norm_num) (by omega)

/-- Claim C2, witness: the one-instruction program `seti 7 0 1` with
pointer register 0 halts after exactly one step with register 0 = 1. -/
theorem c2_witness :
    (∃ final, run_program ([⟨9, 7, 0, 1⟩] : List Command).length [⟨9, 7, 0, 1⟩]
        (part1_processor 0) = ExecResult.halt final ∧
      final.registers.read 0 =
        some (([⟨9, 7, 0, 1⟩] : List Command).length : Int)) ∧
    run_program (([⟨9, 7, 0, 1⟩] : List Command).length - 1) [⟨9, 7, 0, 1⟩]
      (part1_processor 0) = ExecResult.timeout :=
  c2_pointer_halting (by decide) (by decide) (by decide) (by decide)
    (by decide)

/-- A program of `i32`-overflowing size: `2^31` copies of `seti 7 0 1`,
none of which writes to the instruction-pointer register 0. -/
def bigProgram : List Command := List.replicate (2 ^ 31) ⟨9, 7, 0, 1⟩

theorem bigProgram_length : bigProgram.length = 2 ^ 31 := by
  unfold bigProgram
  exact List.length_replicate _ _

/-- Claim C2, counterexample: `bigProgram` satisfies the claim's
precondition (length `N = 2^31 ≥ 1`, pointer register 0 in `[0,5]`, no
instruction writes to register 0), yet the run is already halted at fuel
`N - 1` — `commands.len() as i32` is `-2^31`, so the halting check passes
after the very first step — with register 0 holding `1`, not `N`. -/
theorem c2_counterexample :
    bigProgram.length = 2 ^ 31 ∧
    (∀ cmd ∈ bigProgram, ValidCommand cmd ∧ cmd.c ≠ 0) ∧
    run_program (2 ^ 31 - 1) bigProgram (part1_processor 0) =
      ExecResult.halt ⟨⟨1, 7, 0, 0, 0, 0⟩, 0⟩ ∧
    (1 : Int) ≠ 2 ^ 31 := by
  refine ⟨bigProgram_length, ?_, ?_, by decide⟩
  · intro cmd hm
    rw [List.eq_of_mem_replicate hm]
    exact ⟨by decide, by decide⟩
  · have hk : 0 < bigProgram.length := by rw [bigProgram_length]; norm_num
    have hfetch : fetch bigProgram (part1_processor 0) = some ⟨9, 7, 0, 1⟩ := by
      rw [fetch_at (show (part1_processor 0).ip = some ((0 : Nat) : Int)
        by decide)]
      rw [List.getElem?_eq_getElem hk]
      rfl
    have hrc : run_command ⟨9, 7, 0, 1⟩ initRegisters =
        some ⟨0, 7, 0, 0, 0, 0⟩ := by decide
    have hv : Registers.read ⟨0, 7, 0, 0, 0, 0⟩ 0 = some 0 := by decide
    have hw : Registers.write ⟨0, 7, 0, 0, 0, 0⟩ 0 (i32add 0 1) =
        some ⟨1, 7, 0, 0, 0, 0⟩ := by decide
    have hstep2 : execStep bigProgram (part1_processor 0) =
        some ⟨⟨1, 7, 0, 0, 0, 0⟩, 0⟩ := execStep_eq hfetch hrc hv hw
    have hlen : lenI32 bigProgram = -2 ^ 31 := by
      unfold lenI32
      rw [bigProgram_length]
      decide
    have h1 : run_program 1 bigProgram (part1_processor 0) =
        ExecResult.halt ⟨⟨1, 7, 0, 0, 0, 0⟩, 0⟩ :=
      run_program_succ_halt hstep2
        (show Processor.ip ⟨⟨1, 7, 0, 0, 0, 0⟩, 0⟩ = some 1 from by decide)
        (by rw [hlen]; norm_num)
    exact run_halt_mono h1 (by norm_num)

/-- Invariant behind claim C3: along any run the pointer-register value at
the start of a cycle stays below the (`i32`-cast) program length, because
the loop's halting check just rejected it. -/
theorem stateAtCycle_inv {cs : List Command} {R : Int} :
    ∀ (k : Nat) (p p2 : Processor), p.ip_register = R →
      (∃ v, p.registers.read R = some v ∧ v < (cs.length : Int)) →
      stateAtCycle k cs p = some p2 →
      p2.ip_register = R ∧
        ∃ v, p2.registers.read R = some v ∧ v < (cs.length : Int) := by
  intro k
  induction k with
  | zero =>
    intro p p2 hip hv h
    injection h with h2
    subst h2
    exact ⟨hip, hv⟩
  | succ k ih =>
    intro p p2 hip hv h
    unfold stateAtCycle at h
    cases hs : execStep cs p <;> simp only [hs] at h
    · exact Option.noConfusion h
    rename_i q
    cases hq : q.ip <;> simp only [hq] at h
    · exact Option.noConfusion h
    rename_i v
    by_cases hl : lenI32 cs ≤ v
    · rw [if_pos hl] at h
      exact Option.noConfusion h
    · rw [if_neg hl] at h
      have hqR : q.ip_register = R := (execStep_ip_register hs).trans hip
      refine ih q p2 hqR ⟨v, ?_, ?_⟩ h
      · rw [← hqR]; exact hq
      · have := wrap32_le_self (x := (cs.length : Int)) (by omega)
        unfold lenI32 at hl
        omega

/-- Claim C3, amended: from the initial state, at the start of every
fetch–decode–execute cycle the instruction-pointer register's value is
strictly below `program.length`.  The lower bound of the claimed interval
`[0, program.length)` does not hold: an instruction can leave a negative
value in the pointer register, the post-increment halting check accepts
it, and the next fetch indexes out of bounds (see the counterexample). -/
theorem c3_ip_upper_bound {cs : List Command} {R : Int}
    (hR : inReg R) (hne : 0 < cs.length) :
    ∀ (k : Nat) (p2 : Processor),
      stateAtCycle k cs (part1_processor R) = some p2 →
      ∃ v, p2.registers.read R = some v ∧ v < (cs.length : Int) :=
  fun k p2 h =>
    (stateAtCycle_inv k (part1_processor R) p2 rfl
      ⟨0, initRegisters_read hR, by omega⟩ h).2

/-- Claim C3, witness: after one cycle of the two-instruction program
`seti 0 0 1; seti 0 0 1` with pointer register 0, the pointer value 1 is
still below the program length 2. -/
theorem c3_witness :
    ∃ v, Registers.read ⟨1, 0, 0, 0, 0, 0⟩ 0 = some v ∧
      v < (([⟨9, 0, 0, 1⟩, ⟨9, 0, 0, 1⟩] : List Command).length : Int) :=
  c3_ip_upper_bound (by decide) (by decide) 1 ⟨⟨1, 0, 0, 0, 0, 0⟩, 0⟩
    (by decide)

/-- Claim C3, counterexample: for the one-instruction program
`seti -5 0 0` with pointer register 0 — destination and operand register
indices all within `[0,5]` — the second cycle starts with the pointer at
`-4`, outside `[0, 1)`, and the fetch indexes out of bounds (a panic),
which the claim says is unreachable. -/
theorem c3_counterexample :
    stateAtCycle 1 [⟨9, -5, 0, 0⟩] (part1_processor 0) =
      some ⟨⟨-4, 0, 0, 0, 0, 0⟩, 0⟩ ∧
    ¬(0 : Int) ≤ -4 ∧
    fetch [⟨9, -5, 0, 0⟩] ⟨⟨-4, 0, 0, 0, 0, 0⟩, 0⟩ = none ∧
    run_program 2 [⟨9, -5, 0, 0⟩] (part1_processor 0) = ExecResult.panic :=
  ⟨by decide, by decide, by decide, by decide⟩

/-- Claim C4: each of the six comparison opcodes writes exactly 1 to the
destination when the comparison holds and exactly 0 otherwise, for all
signed operand values — the literal operands (`a` for the `ir` variants,
`b` for the `ri` variants) range over all integers, including negative
ones and values equal to the register operand; the `ir` variants compare
the literal `a` against `reg[b]`, the `ri` variants `reg[a]` against the
literal `b`, the `rr` variants `reg[a]` against `reg[b]`. -/
theorem c4_comparisons {r : Registers} {c : Int} (hc : inReg c) :
    (∀ a b vb, r.read b = some vb →
      ∃ r2, run_command ⟨10, a, b, c⟩ r = some r2 ∧
        r2.read c = some (if a > vb then 1 else 0)) ∧
    (∀ a b va, r.read a = some va →
      ∃ r2, run_command ⟨11, a, b, c⟩ r = some r2 ∧
        r2.read c = some (if va > b then 1 else 0)) ∧
    (∀ a b va vb, r.read a = some va → r.read b = some vb →
      ∃ r2, run_command ⟨12, a, b, c⟩ r = some r2 ∧
        r2.read c = some (if va > vb then 1 else 0)) ∧
    (∀ a b vb, r.read b = some vb →
      ∃ r2, run_command ⟨13, a, b, c⟩ r = some r2 ∧
        r2.read c = some (if a = vb then 1 else 0)) ∧
    (∀ a b va, r.read a = some va →
      ∃ r2, run_command ⟨14, a, b, c⟩ r = some r2 ∧
        r2.read c = some (if va = b then 1 else 0)) ∧
    (∀ a b va vb, r.read a = some va → r.read b = some vb →
      ∃ r2, run_command ⟨15, a, b, c⟩ r = some r2 ∧
        r2.read c = some (if va = vb then 1 else 0)) := by
  refine ⟨?_, ?_, ?_, ?_, ?_, ?_⟩
  · intro a b vb hb
    obtain ⟨r2, h1, h2, _⟩ := testingir_spec (fun x y => decide (x > y)) hb hc
    exact ⟨r2, by simp [run_command]; exact h1, by rw [h2]; simp⟩
  · intro a b va ha
    obtain ⟨r2, h1, h2, _⟩ := testingri_spec (fun x y => decide (x > y)) ha hc
    exact ⟨r2, by simp [run_command]; exact h1, by rw [h2]; simp⟩
  · intro a b va vb ha hb
    obtain ⟨r2, h1, h2, _⟩ :=
      testingrr_spec (fun x y => decide (x > y)) ha hb hc
    exact ⟨r2, by simp [run_command]; exact h1, by rw [h2]; simp⟩
  · intro a b vb hb
    obtain ⟨r2, h1, h2, _⟩ := testingir_spec (fun x y => decide (x = y)) hb hc
    exact ⟨r2, by simp [run_command]; exact h1, by rw [h2]; simp⟩
  · intro a b va ha
    obtain ⟨r2, h1, h2, _⟩ := testingri_spec (fun x y => decide (x = y)) ha hc
    exact ⟨r2, by simp [run_command]; exact h1, by rw [h2]; simp⟩
  · intro a b va vb ha hb
    obtain ⟨r2, h1, h2, _⟩ :=
      testingrr_spec (fun x y => decide (x = y)) ha hb hc
    exact ⟨r2, by simp [run_command]; exact h1, by rw [h2]; simp⟩

/-- Claim C4, witness: `gtir -3 2 3` on registers `(9, -2, 4, 0, 0, 0)`
compares the negative literal `-3` against `reg[2] = 4` and writes 0. -/
theorem c4_witness :
    ∃ r2, run_command ⟨10, -3, 2, 3⟩ ⟨9, -2, 4, 0, 0, 0⟩ = some r2 ∧
      r2.read 3 = some (if (-3 : Int) > 4 then 1 else 0) :=
  (@c4_comparisons ⟨9, -2, 4, 0, 0, 0⟩ 3 (by decide)).1 (-3) 2 4 (by decide)

/-- A one-instruction program whose destination is not the pointer
register halts after exactly one step: the destination holds the
dispatched value, the pointer register holds 1, every other register is
unchanged. -/
theorem c5_case {regs q : Registers} {R : Int} {cmd : Command} {w : Int}
    (hR : inReg R) (hip : regs.read R = some 0)
    (hrc : run_command cmd regs = some q)
    (hval : q.read cmd.c = some w)
    (hframe : ∀ j, j ≠ cmd.c → q.read j = regs.read j)
    (hcR : cmd.c ≠ R) :
    ∃ final, run_program 1 [cmd] ⟨regs, R⟩ = ExecResult.halt final ∧
      final.registers.read cmd.c = some w ∧
      final.registers.read R = some 1 ∧
      ∀ j, j ≠ cmd.c → j ≠ R → final.registers.read j = regs.read j := by
  have hfetch : fetch [cmd] ⟨regs, R⟩ = some cmd := by
    rw [fetch_at (show Processor.ip ⟨regs, R⟩ = some ((0 : Nat) : Int)
      from hip)]
    rfl
  have hq : q.read R = some 0 := by
    rw [hframe R (Ne.symm hcR)]
    exact hip
  obtain ⟨q2, hw⟩ := write_isSome q (i32add 0 1) hR
  have hstep : execStep [cmd] ⟨regs, R⟩ = some ⟨q2, R⟩ :=
    execStep_eq hfetch hrc hq hw
  have hq2R : q2.read R = some 1 := by
    rw [show (1 : Int) = i32add 0 1 from by decide]
    exact read_write_self hw
  have hlen : lenI32 [cmd] = 1 := by
    unfold lenI32
    norm_num [wrap32]
  refine ⟨⟨q2, R⟩, ?_, ?_, hq2R, ?_⟩
  · exact run_program_succ_halt hstep hq2R (by rw [hlen])
  · rw [show Processor.registers ⟨q2, R⟩ = q2 from rfl,
      read_write_other hw hcR]
    exact hval
  · intro j hjc hjR
    rw [show Processor.registers ⟨q2, R⟩ = q2 from rfl,
      read_write_other hw hjR, hframe j hjc]

/-- Claim C5, amended: for each of the eight arithmetic/logic opcodes with
destination `c` different from the pointer register `R`, executing the
single-instruction program writes to `c` exactly the `i32` (wrapping)
result of the documented operation on `reg[a]` and `reg[b]` (register
variants) or the arbitrary literal `b` (immediate variants), writes 1
into `R` (the unconditional pointer increment — `R` is *not* unchanged),
halts after exactly one step, and leaves every register other than `c`
and `R` unchanged. -/
theorem c5_arithmetic {regs : Registers} {c R : Int}
    (hc : inReg c) (hR : inReg R) (hcR : c ≠ R)
    (hip : regs.read R = some 0) :
    (∀ a b va vb, regs.read a = some va → regs.read b = some vb →
      ∃ final, run_program 1 [⟨0, a, b, c⟩] ⟨regs, R⟩ = ExecResult.halt final ∧
        final.registers.read c = some (i32add va vb) ∧
        final.registers.read R = some 1 ∧
        ∀ j, j ≠ c → j ≠ R → final.registers.read j = regs.read j) ∧
    (∀ a b va, regs.read a = some va →
      ∃ final, run_program 1 [⟨1, a, b, c⟩] ⟨regs, R⟩ = ExecResult.halt final ∧
        final.registers.read c = some (i32add va b) ∧
        final.registers.read R = some 1 ∧
        ∀ j, j ≠ c → j ≠ R → final.registers.read j = regs.read j) ∧
    (∀ a b va vb, regs.read a = some va → regs.read b = some vb →
      ∃ final, run_program 1 [⟨2, a, b, c⟩] ⟨regs, R⟩ = ExecResult.halt final ∧
        final.registers.read c = some (i32mul va vb) ∧
        final.registers.read R = some 1 ∧
        ∀ j, j ≠ c → j ≠ R → final.registers.read j = regs.read j) ∧
    (∀ a b va, regs.read a = some va →
      ∃ final, run_program 1 [⟨3, a, b, c⟩] ⟨regs, R⟩ = ExecResult.halt final ∧
        final.registers.read c = some (i32mul va b) ∧
        final.registers.read R = some 1 ∧
        ∀ j, j ≠ c → j ≠ R → final.registers.read j = regs.read j) ∧
    (∀ a b va vb, regs.read a = some va → regs.read b = some vb →
      ∃ final, run_program 1 [⟨4, a, b, c⟩] ⟨regs, R⟩ = ExecResult.halt final ∧
        final.registers.read c = some (i32band va vb) ∧
        final.registers.read R = some 1 ∧
        ∀ j, j ≠ c → j ≠ R → final.registers.read j = regs.read j) ∧
    (∀ a b va, regs.read a = some va →
      ∃ final, run_program 1 [⟨5, a, b, c⟩] ⟨regs, R⟩ = ExecResult.halt final ∧
        final.registers.read c = some (i32band va b) ∧
        final.registers.read R = some 1 ∧
        ∀ j, j ≠ c → j ≠ R → final.registers.read j = regs.read j) ∧
    (∀ a b va vb, regs.read a = some va → regs.read b = some vb →
      ∃ final, run_program 1 [⟨6, a, b, c⟩] ⟨regs, R⟩ = ExecResult.halt final ∧
        final.registers.read c = some (i32bor va vb) ∧
        final.registers.read R = some 1 ∧
        ∀ j, j ≠ c → j ≠ R → final.registers.read j = regs.read j) ∧
    (∀ a b va, regs.read a = some va →
      ∃ final, run_program 1 [⟨7, a, b, c⟩] ⟨regs, R⟩ = ExecResult.halt final ∧
        final.registers.read c = some (i32bor va b) ∧
        final.registers.read R = some 1 ∧
        ∀ j, j ≠ c → j ≠ R → final.registers.read j = regs.read j) := by
  refine ⟨?_, ?_, ?_, ?_, ?_, ?_, ?_, ?_⟩
  · intro a b va vb ha hb
    obtain ⟨q, h1, h2, h3⟩ := binaryr_spec i32add ha hb hc
    exact c5_case hR hip (by simp [run_command]; exact h1) h2 h3 hcR
  · intro a b va ha
    obtain ⟨q, h1, h2, h3⟩ := binaryi_spec i32add ha hc
    exact c5_case hR hip (by simp [run_command]; exact h1) h2 h3 hcR
  · intro a b va vb ha hb
    obtain ⟨q, h1, h2, h3⟩ := binaryr_spec i32mul ha hb hc
    exact c5_case hR hip (by simp [run_command]; exact h1) h2 h3 hcR
  · intro a b va ha
    obtain ⟨q, h1, h2, h3⟩ := binaryi_spec i32mul ha hc
    exact c5_case hR hip (by simp [run_command]; exact h1) h2 h3 hcR
  · intro a b va vb ha hb
    obtain ⟨q, h1, h2, h3⟩ := binaryr_spec i32band ha hb hc
    exact c5_case hR hip (by simp [run_command]; exact h1) h2 h3 hcR
  · intro a b va ha
    obtain ⟨q, h1, h2, h3⟩ := binaryi_spec i32band ha hc
    exact c5_case hR hip (by simp [run_command]; exact h1) h2 h3 hcR
  · intro a b va vb ha hb
    obtain ⟨q, h1, h2, h3⟩ := binaryr_spec i32bor ha hb hc
    exact c5_case hR hip (by simp [run_command]; exact h1) h2 h3 hcR
  · intro a b va ha
    obtain ⟨q, h1, h2, h3⟩ := binaryi_spec i32bor ha hc
    exact c5_case hR hip (by simp [run_command]; exact h1) h2 h3 hcR

/-- Claim C5, witness: `addi 2 16 2` — an immediate literal 16 outside the
register range — as a one-instruction program over registers
`(0, 6, 3, 0, 0, 0)` with pointer register 0 writes `3 + 16 = 19` into
register 2 and increments register 0 to 1. -/
theorem c5_witness :
    ∃ final, run_program 1 [⟨1, 2, 16, 2⟩] ⟨⟨0, 6, 3, 0, 0, 0⟩, 0⟩ =
        ExecResult.halt final ∧
      final.registers.read 2 = some (i32add 3 16) ∧
      final.registers.read 0 = some 1 ∧
      ∀ j, j ≠ 2 → j ≠ 0 →
        final.registers.read j = Registers.read ⟨0, 6, 3, 0, 0, 0⟩ j :=
  (@c5_arithmetic ⟨0, 6, 3, 0, 0, 0⟩ 2 0 (by decide) (by decide) (by decide)
    (by decide)).2.1 2 16 3 (by decide)

/-- Claim C5, counterexample: the single-instruction program `addi 1 1 2`
with pointer register 0, run from registers `(0, 2147483647, 0, 0, 0, 0)`.
The claim says register 2 becomes `reg[1] + 1 = 2147483648` and all
registers other than the destination stay unchanged; instead the `i32`
addition wraps register 2 to `-2147483648`, and register 0 — not the
destination — is changed to 1 by the pointer increment. -/
theorem c5_counterexample :
    run_program 1 [⟨1, 1, 1, 2⟩] ⟨⟨0, 2147483647, 0, 0, 0, 0⟩, 0⟩ =
      ExecResult.halt ⟨⟨1, 2147483647, -2147483648, 0, 0, 0⟩, 0⟩ ∧
    (-2147483648 : Int) ≠ 2147483647 + 1 ∧
    (1 : Int) ≠ 0 :=
  ⟨by decide, by decide, by decide⟩

/-- Claim C6: a successful dispatch of any of the 16 opcodes changes at
most the destination register `c` — every register with a different index
reads the same after as before — and for `setr`/`seti` the result does not
depend on operand `b` at all. -/
theorem c6_single_write {cmd : Command} {r r2 : Registers}
    (h : run_command cmd r = some r2) :
    (∀ j, j ≠ cmd.c → r2.read j = r.read j) ∧
    (∀ a b b2 c, run_command ⟨8, a, b, c⟩ r = run_command ⟨8, a, b2, c⟩ r) ∧
    (∀ a b b2 c, run_command ⟨9, a, b, c⟩ r = run_command ⟨9, a, b2, c⟩ r) :=
  ⟨run_command_frame h, fun a b b2 c => by simp [run_command, setr],
    fun a b b2 c => by simp [run_command, seti]⟩

/-- Claim C6, witness: `addr 1 2 3` on registers `(4, 5, 6, 7, 8, 9)`
writes `11` into register 3 and register 0 is untouched. -/
theorem c6_witness :
    Registers.read ⟨4, 5, 6, 11, 8, 9⟩ 0 = Registers.read ⟨4, 5, 6, 7, 8, 9⟩ 0 :=
  (@c6_single_write ⟨0, 1, 2, 3⟩ ⟨4, 5, 6, 7, 8, 9⟩ ⟨4, 5, 6, 11, 8, 9⟩
    (by decide)).1 0 (by decide)

/-- Claim C7, amended: for the one-instruction program `seti t 0 R` with
`R` the pointer register and `-2^31 ≤ t < 2^31 - 1` (so the increment does
not overflow): execution halts after exactly one step when `t + 1 ≥ 1`
(`= N`), and otherwise the next cycle begins with the pointer register —
the next fetch address — holding `t + 1`.  The claim's boundary literal
`t = 2^31 - 1` must be excluded: there the increment wraps to `-2^31` and
the program does not halt (see the counterexample). -/
theorem c7_seti_jump {R t : Int} (hR : inReg R)
    (h1 : -2 ^ 31 ≤ t) (h2 : t < 2 ^ 31 - 1) :
    ∃ final, execStep [⟨9, t, 0, R⟩] (part1_processor R) = some final ∧
      final.registers.read R = some (t + 1) ∧
      run_program 0 [⟨9, t, 0, R⟩] (part1_processor R) = ExecResult.timeout ∧
      (1 ≤ t + 1 → run_program 1 [⟨9, t, 0, R⟩] (part1_processor R) =
        ExecResult.halt final) ∧
      (t + 1 < 1 → stateAtCycle 1 [⟨9, t, 0, R⟩] (part1_processor R) =
        some final) := by
  have hip : (part1_processor R).registers.read R = some 0 :=
    initRegisters_read hR
  have hfetch : fetch [⟨9, t, 0, R⟩] (part1_processor R) =
      some ⟨9, t, 0, R⟩ := by
    rw [fetch_at (show Processor.ip (part1_processor R) =
      some ((0 : Nat) : Int) from hip)]
    rfl
  obtain ⟨q, hw1⟩ := write_isSome initRegisters t hR
  have hrc : run_command ⟨9, t, 0, R⟩ initRegisters = some q := by
    simp [run_command, seti]
    exact hw1
  have hqt : q.read R = some t := read_write_self hw1
  have hadd : i32add t 1 = t + 1 := wrap32_eq_self (by omega) (by omega)
  obtain ⟨q2, hw2⟩ := write_isSome q (i32add t 1) hR
  have hstep : execStep [⟨9, t, 0, R⟩] (part1_processor R) = some ⟨q2, R⟩ :=
    execStep_eq hfetch hrc hqt hw2
  have hq2 : q2.read R = some (t + 1) := by
    rw [← hadd]
    exact read_write_self hw2
  have hlen : lenI32 [(⟨9, t, 0, R⟩ : Command)] = 1 := by
    unfold lenI32
    norm_num [wrap32]
  refine ⟨⟨q2, R⟩, hstep, hq2, rfl, ?_, ?_⟩
  · intro hge
    exact run_program_succ_halt hstep hq2 (by rw [hlen]; omega)
  · intro hlt
    rw [stateAtCycle_succ_cont hstep hq2 (by rw [hlen]; omega)]
    rfl

/-- Claim C7, witness: `seti 3 0 0` (target 3, `N = 1`, `3 + 1 ≥ 1`)
halts after exactly one step. -/
theorem c7_witness :
    ∃ final, execStep [⟨9, 3, 0, 0⟩] (part1_processor 0) = some final ∧
      final.registers.read 0 = some (3 + 1) ∧
      run_program 0 [⟨9, 3, 0, 0⟩] (part1_processor 0) = ExecResult.timeout ∧
      (1 ≤ (3 : Int) + 1 → run_program 1 [⟨9, 3, 0, 0⟩] (part1_processor 0) =
        ExecResult.halt final) ∧
      ((3 : Int) + 1 < 1 → stateAtCycle 1 [⟨9, 3, 0, 0⟩] (part1_processor 0) =
        some final) :=
  c7_seti_jump (by decide) (by decide) (by decide)

/-- Claim C7, counterexample: `seti 2147483647 0 0` has
`target + 1 = 2^31 ≥ N = 1`, so the claim says it halts after one step;
instead the `i32` increment wraps the pointer to `-2^31`, the halting
check fails, and the next cycle panics fetching a negative address — the
program never halts. -/
theorem c7_counterexample :
    (1 : Int) ≤ 2147483647 + 1 ∧
    run_program 1 [⟨9, 2147483647, 0, 0⟩] (part1_processor 0) =
      ExecResult.timeout ∧
    run_program 2 [⟨9, 2147483647, 0, 0⟩] (part1_processor 0) =
      ExecResult.panic :=
  ⟨by decide, by decide, by decide⟩

/-- The seven-instruction end-to-end program of the spec (`#ip 0`):
`seti 5 0 1; seti 6 0 2; addi 0 1 0; addr 1 2 3; setr 1 0 0; seti 8 0 4;
seti 9 0 5` (opcode numbers per `get_instructions`). -/
def prog8 : List Command :=
  [⟨9, 5, 0, 1⟩, ⟨9, 6, 0, 2⟩, ⟨1, 0, 1, 0⟩, ⟨0, 1, 2, 3⟩, ⟨8, 1, 0, 0⟩,
    ⟨9, 8, 0, 4⟩, ⟨9, 9, 0, 5⟩]

/-- Claim C8: the end-to-end program with pointer register 0 halts — after
exactly five fetch–decode–execute steps (fuel 4 is still running) — and
produces the fully determined snapshot `(7, 5, 6, 0, 0, 9)`. -/
theorem c8_end_to_end :
    run_program 5 prog8 (part1_processor 0) =
      ExecResult.halt ⟨⟨7, 5, 6, 0, 0, 9⟩, 0⟩ ∧
    run_program 4 prog8 (part1_processor 0) = ExecResult.timeout :=
  ⟨by decide, by decide⟩

/-- Claim C9: execution starts from `Registers(0, 0, 0, 0, 0, 0)` — every
register, in particular the pointer register, is 0 — so the first fetch of
any non-empty program is the instruction at address 0. -/
theorem c9_initial_state {cs : List Command} {R : Int}
    (hR : inReg R) (hne : cs ≠ []) :
    (∀ i, inReg i → (part1_processor R).registers.read i = some 0) ∧
    fetch cs (part1_processor R) = cs[0]? ∧
    ∃ c0, cs[0]? = some c0 := by
  refine ⟨fun i hi => initRegisters_read hi, ?_, ?_⟩
  · exact fetch_at (show Processor.ip (part1_processor R) =
      some ((0 : Nat) : Int) from initRegisters_read hR)
  · have hk : 0 < cs.length := List.length_pos.mpr hne
    exact ⟨cs.get ⟨0, hk⟩, List.getElem?_eq_getElem hk⟩

/-- Claim C9, witness: with pointer register 4 and the one-instruction
program `seti 7 0 1`, all six registers read 0 and the first fetch is the
instruction at address 0. -/
theorem c9_witness :
    (∀ i, inReg i → (part1_processor 4).registers.read i = some 0) ∧
    fetch [⟨9, 7, 0, 1⟩] (part1_processor 4) =
      ([⟨9, 7, 0, 1⟩] : List Command)[0]? ∧
    ∃ c0, ([⟨9, 7, 0, 1⟩] : List Command)[0]? = some c0 :=
  c9_initial_state (by decide) (by decide)

/-- Claim C10: registers are 32-bit signed integers and opcode arithmetic
is `i32` arithmetic, not unbounded: the four add/multiply opcodes write
the mathematical result reduced into `[-2^31, 2^31)` (`wrap32`, the
two's-complement reduction modulo `2^32`), every `wrap32` result lies in
that range, and at `2147483647 + 1` the written value `-2147483648`
differs from the unbounded-integer result. -/
theorem c10_i32_arithmetic {r : Registers} {a b c va vb : Int}
    (ha : r.read a = some va) (hb : r.read b = some vb) (hc : inReg c) :
    (∃ r2, run_command ⟨0, a, b, c⟩ r = some r2 ∧
      r2.read c = some (wrap32 (va + vb))) ∧
    (∃ r2, run_command ⟨1, a, b, c⟩ r = some r2 ∧
      r2.read c = some (wrap32 (va + b))) ∧
    (∃ r2, run_command ⟨2, a, b, c⟩ r = some r2 ∧
      r2.read c = some (wrap32 (va * vb))) ∧
    (∃ r2, run_command ⟨3, a, b, c⟩ r = some r2 ∧
      r2.read c = some (wrap32 (va * b))) ∧
    (∀ x : Int, -2 ^ 31 ≤ wrap32 x ∧ wrap32 x < 2 ^ 31) ∧
    wrap32 (2147483647 + 1) = -2147483648 ∧
    (-2147483648 : Int) ≠ 2147483647 + 1 := by
  refine ⟨?_, ?_, ?_, ?_, fun x => ⟨wrap32_lb x, wrap32_ub x⟩, by decide,
    by decide⟩
  · obtain ⟨r2, h1, h2, _⟩ := binaryr_spec i32add ha hb hc
    exact ⟨r2, by simp [run_command]; exact h1, h2⟩
  · obtain ⟨r2, h1, h2, _⟩ := binaryi_spec i32add ha hc
    exact ⟨r2, by simp [run_command]; exact h1, h2⟩
  · obtain ⟨r2, h1, h2, _⟩ := binaryr_spec i32mul ha hb hc
    exact ⟨r2, by simp [run_command]; exact h1, h2⟩
  · obtain ⟨r2, h1, h2, _⟩ := binaryi_spec i32mul ha hc
    exact ⟨r2, by simp [run_command]; exact h1, h2⟩

/-- Claim C10, witness: `addr 0 1 2` on registers
`(2147483647, 1, 0, 0, 0, 0)` writes `wrap32 (2147483647 + 1)`. -/
theorem c10_witness :
    ∃ r2, run_command ⟨0, 0, 1, 2⟩ ⟨2147483647, 1, 0, 0, 0, 0⟩ = some r2 ∧
      r2.read 2 = some (wrap32 (2147483647 + 1)) :=
  (@c10_i32_arithmetic ⟨2147483647, 1, 0, 0, 0, 0⟩ 0 1 2 2147483647 1
    (by decide) (by decide) (by decide)).1
